import Mathlib

/-!
Verification of the inventory-and-bidding system (`mian.py`).

Shallow embedding notes:
* Python `dict` (insertion-ordered) is modelled as an association list
  `List (String × α)`: updating an existing key replaces the value in
  place (keeping its position), a new key is appended at the end.
* Bid amounts and prices are modelled as `Int`: the source only ever
  compares amounts and stores them, so any linearly ordered carrier is
  faithful; integers keep everything decidable.
* Wall-clock time is modelled as an `Int` parameter `now` threaded into
  each time-sensitive operation (the source reads `datetime.now()` once
  per operation).
* `Item.adjust_stock` raises `ValueError` on underflow, modelled as
  `Option Item` (`none` = the exception, state unchanged at callers that
  catch it).
-/

/-- Insertion-ordered dictionary lookup (`d[k]` / `k in d`). -/
def dictGet {α : Type} : List (String × α) → String → Option α
  | [], _ => none
  | (k', v) :: rest, k => if k' = k then some v else dictGet rest k

/-- Insertion-ordered dictionary update (`d[k] = v`): replaces in place
when the key is present, appends otherwise (CPython dict semantics). -/
def dictSet {α : Type} : List (String × α) → String → α → List (String × α)
  | [], k, v => [(k, v)]
  | (k', v') :: rest, k, v =>
      if k' = k then (k, v) :: rest else (k', v') :: dictSet rest k v

/-- `Item` from `mian.py`: the Ledger's per-item record.  The restock
date is kept as its source string (it is never computed with). -/
structure Item where
  itemId : String
  name : String
  category : String
  stock : Int
  unitPrice : Int
  lastRestockDate : String
  reorderThreshold : Int
deriving DecidableEq

/-- `Item.adjust_stock`: fails (raises, modelled as `none`) when the
stock would go negative, otherwise adds `amount` to the stock. -/
def Item.adjust_stock (it : Item) (amount : Int) : Option Item :=
  if it.stock + amount < 0 then none
  else some { it with stock := it.stock + amount }

/-- A sequence of Ledger `adjust` calls on one item; a failed call
leaves the stock unchanged (callers catch the `ValueError`). -/
def applyAdjusts (it : Item) : List Int → Item
  | [] => it
  | d :: ds =>
      match it.adjust_stock d with
      | none => applyAdjusts it ds
      | some it' => applyAdjusts it' ds

/-- `Offer` from `mian.py`: one auction's state.  `bids` is the
insertion-ordered merchant → amount mapping; `status` is one of the
strings `"active"`, `"completed"`, `"cancelled"`. -/
structure Offer where
  offerId : String
  itemId : String
  quantity : Int
  endTime : Int
  bids : List (String × Int)
  status : String
  winner : Option String
  winningBid : Int
deriving DecidableEq

/-- `Offer.add_bid`: rejects when the offer is not active, when `now`
is strictly after the end time, or when the merchant already has a bid
`≥ amount`; otherwise stores the bid.  Returns the accept/reject flag
together with the updated offer (the source mutates in place). -/
def Offer.add_bid (o : Offer) (merchantId : String) (amount : Int) (now : Int) :
    Bool × Offer :=
  if o.status ≠ "active" then (false, o)
  else if o.endTime < now then (false, o)
  else
    match dictGet o.bids merchantId with
    | some prev =>
        if amount ≤ prev then (false, o)
        else (true, { o with bids := dictSet o.bids merchantId amount })
    | none => (true, { o with bids := dictSet o.bids merchantId amount })

/-- Python's `max(items, key = amount)`: folds left, replacing the
current best only on a strictly greater amount, so the first maximal
element encountered wins. -/
def pyMax (best : String × Int) : List (String × Int) → String × Int
  | [] => best
  | p :: rest => pyMax (if best.2 < p.2 then p else best) rest

/-- `Offer.get_highest_bid`: `(none, 0)` on an empty mapping, otherwise
the first entry of maximal amount. -/
def Offer.get_highest_bid (o : Offer) : Option String × Int :=
  match o.bids with
  | [] => (none, 0)
  | b :: rest => ((pyMax b rest).1, (pyMax b rest).2)

/-- `InventoryManager` from `mian.py`. -/
structure InventoryManager where
  inventory : List (String × Item)
  offers : List (String × Offer)
  nextOfferId : Nat
deriving DecidableEq

/-- Decimal rendering of a natural number (what Python's
`f"OFFER-{n}"` produces for the counter). -/
def natDecimal (n : Nat) : String :=
  if n = 0 then "0"
  else (((Nat.digits 10 n).map Nat.digitChar).reverse).asString

/-- Offer identifier format: the fixed text `OFFER-` followed by the
decimal counter value. -/
def mkOfferId (n : Nat) : String := "OFFER-" ++ natDecimal n

/-- The fixed seed inventory loaded by `_load_initial_inventory`;
`next_offer_id` starts at 1. -/
def initialManager : InventoryManager :=
  { inventory :=
      [("TS-A", { itemId := "TS-A", name := "T-Shirt style A",
                  category := "Clothing", stock := 50, unitPrice := 20,
                  lastRestockDate := "2025-09-01", reorderThreshold := 10 }),
       ("TS-B", { itemId := "TS-B", name := "T-Shirt style B",
                  category := "Clothing", stock := 20, unitPrice := 25,
                  lastRestockDate := "2025-09-15", reorderThreshold := 5 }),
       ("SH-C", { itemId := "SH-C", name := "Men's shorts - Cargo",
                  category := "Clothing", stock := 65, unitPrice := 25,
                  lastRestockDate := "2025-09-15", reorderThreshold := 5 })],
    offers := [],
    nextOfferId := 1 }

/-- `InventoryManager.create_new_offer`: earmarks stock via the Ledger,
then allocates `OFFER-<counter>`, bumps the counter and stores a fresh
active offer; on an unknown item or a Ledger rejection it returns
`none` with the manager unchanged. -/
def InventoryManager.create_new_offer (m : InventoryManager)
    (itemId : String) (quantity : Int) (endTime : Int) :
    Option String × InventoryManager :=
  match dictGet m.inventory itemId with
  | none => (none, m)
  | some it =>
      match it.adjust_stock (-quantity) with
      | none => (none, m)
      | some it' =>
          let offerId := mkOfferId m.nextOfferId
          (some offerId,
           { m with
               inventory := dictSet m.inventory itemId it',
               offers := dictSet m.offers offerId
                 { offerId := offerId, itemId := itemId,
                   quantity := quantity, endTime := endTime,
                   bids := [], status := "active",
                   winner := none, winningBid := 0 },
               nextOfferId := m.nextOfferId + 1 })

/-- Outcome of `complete_bid`, following the spec's result taxonomy
(the source signals these via distinct log messages and returns). -/
inductive CompleteResult where
  | unknownOffer
  | alreadyFinalized
  | stillOpen
  | won (merchantId : String) (amount : Int)
  | noBids
deriving DecidableEq

/-- The no-winner branch of `complete_bid`: credits the reserved
quantity back to the item (when the item exists and the credit does not
underflow — a failure is only logged) and marks the offer completed. -/
def completeNoBids (m : InventoryManager) (offerId : String) (offer : Offer) :
    CompleteResult × InventoryManager :=
  let m1 :=
    match dictGet m.inventory offer.itemId with
    | none => m
    | some it =>
        match it.adjust_stock offer.quantity with
        | none => m
        | some it' => { m with inventory := dictSet m.inventory offer.itemId it' }
  let offer' : Offer := { offer with status := "completed" }
  (CompleteResult.noBids,
   { m1 with offers := dictSet m1.offers offerId offer' })

/-- `InventoryManager.complete_bid`: rejects an unknown offer, a
non-active offer, and `now ≤ end_time`; otherwise takes the highest
bid.  The source gates the winner branch with Python truthiness
(`if winner_id:`), so a `none` winner and the empty-string merchant id
both fall through to the no-bid branch. -/
def InventoryManager.complete_bid (m : InventoryManager)
    (offerId : String) (now : Int) : CompleteResult × InventoryManager :=
  match dictGet m.offers offerId with
  | none => (CompleteResult.unknownOffer, m)
  | some offer =>
      if offer.status ≠ "active" then (CompleteResult.alreadyFinalized, m)
      else if now ≤ offer.endTime then (CompleteResult.stillOpen, m)
      else
        match offer.get_highest_bid with
        | (some w, a) =>
            if w = "" then completeNoBids m offerId offer
            else
              let offer' : Offer :=
                { offer with status := "completed",
                             winner := some w, winningBid := a }
              (CompleteResult.won w a,
               { m with offers := dictSet m.offers offerId offer' })
        | (none, _) => completeNoBids m offerId offer

/-- Registry invariant: every counter value from the current one
upwards is still unused as an offer identifier. -/
def OfferIdsFresh (m : InventoryManager) : Prop :=
  ∀ k : Nat, m.nextOfferId ≤ k → dictGet m.offers (mkOfferId k) = none

/-! ### Concrete fixtures used by witnesses and counterexamples -/

/-- The seed `TS-A` item. -/
def tItem : Item :=
  { itemId := "TS-A", name := "T-Shirt style A", category := "Clothing",
    stock := 50, unitPrice := 20, lastRestockDate := "2025-09-01",
    reorderThreshold := 10 }

/-- A fresh active offer for 20 units of `TS-A`, window closing at 100. -/
def tOffer : Offer :=
  { offerId := "OFFER-1", itemId := "TS-A", quantity := 20, endTime := 100,
    bids := [], status := "active", winner := none, winningBid := 0 }

/-- `tOffer` carrying two bids, Alpha's (updated to 510) first. -/
def tOfferBids : Offer := { tOffer with bids := [("Alpha", 510), ("Beta", 500)] }

/-- A manager holding `TS-A` at its post-reservation stock 30 and the
two-bid offer. -/
def tMgr : InventoryManager :=
  { inventory := [("TS-A", { tItem with stock := 30 })],
    offers := [("OFFER-1", tOfferBids)],
    nextOfferId := 2 }

/-- A manager whose only offer has no bids. -/
def tMgrNoBids : InventoryManager := { tMgr with offers := [("OFFER-1", tOffer)] }

/-- A manager whose only offer is already completed. -/
def tMgrDone : InventoryManager :=
  { tMgr with offers := [("OFFER-1", { tOfferBids with status := "completed" })] }

/-- An offer whose only (and hence maximal) bid comes from the
empty-string merchant identifier. -/
def tOfferEmptyBidder : Offer := { tOffer with bids := [("", 7)] }

/-- A manager holding the empty-merchant offer. -/
def tMgrEmptyBidder : InventoryManager :=
  { tMgr with offers := [("OFFER-1", tOfferEmptyBidder)] }

/-! ## Dictionary lemmas -/

lemma dictGet_dictSet_self {α : Type} (l : List (String × α)) (k : String) (v : α) :
    dictGet (dictSet l k v) k = some v := by
  induction l with
  | nil => simp [dictGet, dictSet]
  | cons p rest ih =>
      by_cases h : p.1 = k
      · simp [dictGet, dictSet, h]
      · simp [dictGet, dictSet, h, ih]

lemma dictGet_dictSet_ne {α : Type} (l : List (String × α)) (k k' : String) (v : α)
    (h : k' ≠ k) : dictGet (dictSet l k' v) k = dictGet l k := by
  induction l with
  | nil => simp [dictGet, dictSet, h]
  | cons p rest ih =>
      by_cases hp : p.1 = k'
      · simp [dictGet, dictSet, hp, h]
      · by_cases hk : p.1 = k
        · simp [dictGet, dictSet, hp, hk, Ne.symm h]
        · simp [dictGet, dictSet, hp, hk, ih]

/-! ## Stock non-negativity -/

lemma applyAdjusts_stock_nonneg :
    ∀ (ds : List Int) (it : Item), 0 ≤ it.stock → 0 ≤ (applyAdjusts it ds).stock := by
  intro ds
  induction ds with
  | nil => intro it h; exact h
  | cons d ds ih =>
      intro it h
      show 0 ≤ (applyAdjusts it (d :: ds)).stock
      rw [applyAdjusts]
      rcases hA : it.adjust_stock d with _ | it'
      · exact ih it h
      · rw [Item.adjust_stock] at hA
        by_cases hlt : it.stock + d < 0
        · rw [if_pos hlt] at hA; cases hA
        · rw [if_neg hlt] at hA
          cases hA
          exact ih _ (by simpa using Int.not_lt.1 hlt)

/-! ## Highest-bid selection: Python max keeps the first maximal entry -/

lemma pyMax_decomp (l : List (String × Int)) :
    ∀ best : String × Int,
      ∃ l1 l2, best :: l = l1 ++ pyMax best l :: l2 ∧
        (∀ p ∈ l1, p.2 < (pyMax best l).2) ∧
        (∀ p ∈ l2, p.2 ≤ (pyMax best l).2) := by
  induction l with
  | nil => intro best; exact ⟨[], [], rfl, by simp, by simp⟩
  | cons p l ih =>
      intro best
      by_cases h : best.2 < p.2
      · have hpm : pyMax best (p :: l) = pyMax p l := by
          rw [pyMax, if_pos h]
        obtain ⟨l1, l2, heq, h1, h2⟩ := ih p
        have hbr : best.2 < (pyMax p l).2 := by
          cases l1 with
          | nil =>
              simp only [List.nil_append] at heq
              have : p = pyMax p l := (List.cons.inj heq).1
              rw [← this]; exact h
          | cons q t =>
              simp only [List.cons_append] at heq
              have hq : q = p := ((List.cons.inj heq).1).symm
              exact h.trans (hq ▸ h1 q (List.mem_cons_self q t))
        refine ⟨best :: l1, l2, ?_, ?_, ?_⟩
        · rw [hpm, List.cons_append]; exact congrArg (best :: ·) heq
        · intro q hq
          rcases List.mem_cons.1 hq with rfl | hq'
          · rw [hpm]; exact hbr
          · rw [hpm]; exact h1 q hq'
        · intro q hq; rw [hpm]; exact h2 q hq
      · have hpm : pyMax best (p :: l) = pyMax best l := by
          rw [pyMax, if_neg h]
        have hple : p.2 ≤ best.2 := Int.not_lt.1 h
        obtain ⟨l1, l2, heq, h1, h2⟩ := ih best
        cases l1 with
        | nil =>
            simp only [List.nil_append] at heq
            obtain ⟨hbest, hl⟩ := List.cons.inj heq
            refine ⟨[], p :: l2, ?_, by simp, ?_⟩
            · rw [hpm, List.nil_append, ← hbest]
              exact congrArg (fun t => best :: p :: t) hl
            · intro q hq
              rcases List.mem_cons.1 hq with rfl | hq'
              · rw [hpm, ← hbest]; exact hple
              · rw [hpm]; exact h2 q hq'
        | cons q t =>
            simp only [List.cons_append] at heq
            obtain ⟨hbest, hl⟩ := List.cons.inj heq
            have hbestlt : best.2 < (pyMax best l).2 := by
              have := h1 q (List.mem_cons_self q t)
              rw [← hbest] at this; exact this
            refine ⟨best :: p :: t, l2, ?_, ?_, ?_⟩
            · rw [hpm]
              show best :: p :: l = best :: p :: (t ++ pyMax best l :: l2)
              exact congrArg (fun s => best :: p :: s) hl
            · intro r hr
              rw [hpm]
              rcases List.mem_cons.1 hr with rfl | hr'
              · exact hbestlt
              · rcases List.mem_cons.1 hr' with rfl | hr''
                · exact lt_of_le_of_lt hple hbestlt
                · exact h1 r (List.mem_cons_of_mem q hr'')
            · intro r hr; rw [hpm]; exact h2 r hr

lemma get_highest_bid_decomp (o : Offer) (h : o.bids ≠ []) :
    ∃ w a l1 l2, o.get_highest_bid = (some w, a) ∧
      o.bids = l1 ++ (w, a) :: l2 ∧
      (∀ p ∈ l1, p.2 < a) ∧ (∀ p ∈ l2, p.2 ≤ a) := by
  rcases hb : o.bids with _ | ⟨b, rest⟩
  · exact absurd hb h
  · obtain ⟨l1, l2, heq, h1, h2⟩ := pyMax_decomp rest b
    refine ⟨(pyMax b rest).1, (pyMax b rest).2, l1, l2, ?_, ?_, h1, h2⟩
    · rw [Offer.get_highest_bid, hb]
    · rw [heq]

/-! ## Injectivity of the offer-identifier format -/

lemma digitChar_inj_lt {a b : Nat} (ha : a < 10) (hb : b < 10)
    (h : Nat.digitChar a = Nat.digitChar b) : a = b := by
  interval_cases a <;> interval_cases b <;> revert h <;> decide

lemma map_digitChar_inj :
    ∀ {l1 l2 : List Nat}, (∀ x ∈ l1, x < 10) → (∀ x ∈ l2, x < 10) →
      l1.map Nat.digitChar = l2.map Nat.digitChar → l1 = l2 := by
  intro l1
  induction l1 with
  | nil =>
      intro l2 _ _ h
      cases l2 with
      | nil => rfl
      | cons y t => simp at h
  | cons x t ih =>
      intro l2 h1 h2 h
      cases l2 with
      | nil => simp at h
      | cons y t2 =>
          simp only [List.map_cons, List.cons.injEq] at h
          obtain ⟨hxy, ht⟩ := h
          have hx := h1 x (List.mem_cons_self x t)
          have hy := h2 y (List.mem_cons_self y t2)
          have hxey : x = y := digitChar_inj_lt hx hy hxy
          subst hxey
          have hrec := ih (fun z hz => h1 z (List.mem_cons_of_mem x hz))
            (fun z hz => h2 z (List.mem_cons_of_mem x hz)) ht
          rw [hrec]

lemma natDecimal_zero_case {b : Nat} (h : natDecimal 0 = natDecimal b) : b = 0 := by
  by_cases hb : b = 0
  · exact hb
  · exfalso
    rw [natDecimal, if_pos rfl, natDecimal, if_neg hb] at h
    have hd : (['0'] : List Char) = ((Nat.digits 10 b).map Nat.digitChar).reverse :=
      congrArg String.data h
    have hmap : (Nat.digits 10 b).map Nat.digitChar = ['0'] := by
      have := congrArg List.reverse hd
      simpa using this.symm
    rcases hdig : Nat.digits 10 b with _ | ⟨d, t⟩
    · rw [hdig] at hmap; simp at hmap
    · rw [hdig] at hmap
      simp only [List.map_cons, List.cons.injEq] at hmap
      obtain ⟨hd0, ht⟩ := hmap
      have htnil : t = [] := by
        have := congrArg List.length ht
        simpa using this
      have hmem : d ∈ Nat.digits 10 b := by
        rw [hdig]; exact List.mem_cons_self d t
      have hdlt : d < 10 := Nat.digits_lt_base (by norm_num) hmem
      have hdz : d = 0 := digitChar_inj_lt hdlt (by norm_num) (by rw [hd0]; rfl)
      have hof := Nat.ofDigits_digits 10 b
      rw [hdig, htnil, hdz] at hof
      simp [Nat.ofDigits] at hof
      exact hb hof.symm

lemma natDecimal_inj {a b : Nat} (h : natDecimal a = natDecimal b) : a = b := by
  by_cases ha : a = 0
  · subst ha; exact (natDecimal_zero_case h).symm
  · by_cases hb : b = 0
    · subst hb; exact natDecimal_zero_case h.symm
    · rw [natDecimal, if_neg ha, natDecimal, if_neg hb] at h
      have hd : ((Nat.digits 10 a).map Nat.digitChar).reverse =
          ((Nat.digits 10 b).map Nat.digitChar).reverse :=
        congrArg String.data h
      have hrev : (Nat.digits 10 a).map Nat.digitChar =
          (Nat.digits 10 b).map Nat.digitChar := by
        have := congrArg List.reverse hd
        simpa using this
      have hdig : Nat.digits 10 a = Nat.digits 10 b :=
        map_digitChar_inj
          (fun x hx => Nat.digits_lt_base (by norm_num) hx)
          (fun x hx => Nat.digits_lt_base (by norm_num) hx) hrev
      have hof := Nat.ofDigits_digits 10 a
      rw [hdig, Nat.ofDigits_digits] at hof
      exact hof.symm

lemma string_data_inj {s t : String} (h : s.data = t.data) : s = t := by
  cases s
  cases t
  exact congrArg String.mk h

lemma mkOfferId_inj {a b : Nat} (h : mkOfferId a = mkOfferId b) : a = b := by
  apply natDecimal_inj
  have hd := congrArg String.data h
  rw [mkOfferId, mkOfferId, String.data_append, String.data_append] at hd
  exact string_data_inj (List.append_cancel_left hd)

/-! ## Operation-level equation lemmas -/

lemma add_bid_not_active (o : Offer) (mid : String) (amount now : Int)
    (h : o.status ≠ "active") : o.add_bid mid amount now = (false, o) := by
  rw [Offer.add_bid, if_pos h]

lemma add_bid_late (o : Offer) (mid : String) (amount now : Int)
    (h : o.endTime < now) : o.add_bid mid amount now = (false, o) := by
  by_cases hs : o.status ≠ "active"
  · rw [Offer.add_bid, if_pos hs]
  · rw [Offer.add_bid, if_neg hs, if_pos h]

lemma add_bid_not_improved (o : Offer) (mid : String) (amount now prev : Int)
    (hs : o.status = "active") (ht : now ≤ o.endTime)
    (hprev : dictGet o.bids mid = some prev) (hle : amount ≤ prev) :
    o.add_bid mid amount now = (false, o) := by
  rw [Offer.add_bid]
  rw [if_neg (by simp [hs])]
  rw [if_neg (Int.not_lt.2 ht)]
  simp only [hprev, if_pos hle]

lemma add_bid_improved (o : Offer) (mid : String) (amount now prev : Int)
    (hs : o.status = "active") (ht : now ≤ o.endTime)
    (hprev : dictGet o.bids mid = some prev) (hgt : prev < amount) :
    o.add_bid mid amount now =
      (true, { o with bids := dictSet o.bids mid amount }) := by
  rw [Offer.add_bid]
  rw [if_neg (by simp [hs])]
  rw [if_neg (Int.not_lt.2 ht)]
  simp only [hprev, if_neg (Int.not_le.2 hgt)]

lemma add_bid_new (o : Offer) (mid : String) (amount now : Int)
    (hs : o.status = "active") (ht : now ≤ o.endTime)
    (hnew : dictGet o.bids mid = none) :
    o.add_bid mid amount now =
      (true, { o with bids := dictSet o.bids mid amount }) := by
  rw [Offer.add_bid]
  rw [if_neg (by simp [hs])]
  rw [if_neg (Int.not_lt.2 ht)]
  simp only [hnew]

lemma adjust_stock_fail (it : Item) (d : Int) (h : it.stock + d < 0) :
    it.adjust_stock d = none := by
  rw [Item.adjust_stock, if_pos h]

lemma adjust_stock_ok (it : Item) (d : Int) (h : 0 ≤ it.stock + d) :
    it.adjust_stock d = some ({ it with stock := it.stock + d }) := by
  rw [Item.adjust_stock, if_neg (Int.not_lt.2 h)]

lemma create_new_offer_unknown (m : InventoryManager) (itemId : String)
    (q tEnd : Int) (hIt : dictGet m.inventory itemId = none) :
    m.create_new_offer itemId q tEnd = (none, m) := by
  simp only [InventoryManager.create_new_offer, hIt]

lemma create_new_offer_insufficient (m : InventoryManager) (itemId : String)
    (q tEnd : Int) (it : Item) (hIt : dictGet m.inventory itemId = some it)
    (hq : it.stock - q < 0) :
    m.create_new_offer itemId q tEnd = (none, m) := by
  simp only [InventoryManager.create_new_offer, hIt,
    adjust_stock_fail it (-q) (by omega)]

lemma create_new_offer_success (m : InventoryManager) (itemId : String)
    (q tEnd : Int) (it : Item) (hIt : dictGet m.inventory itemId = some it)
    (hq : 0 ≤ it.stock - q) :
    m.create_new_offer itemId q tEnd =
      (some (mkOfferId m.nextOfferId),
       { m with
           inventory := dictSet m.inventory itemId
             ({ it with stock := it.stock - q }),
           offers := dictSet m.offers (mkOfferId m.nextOfferId)
             { offerId := mkOfferId m.nextOfferId, itemId := itemId,
               quantity := q, endTime := tEnd, bids := [],
               status := "active", winner := none, winningBid := 0 },
           nextOfferId := m.nextOfferId + 1 }) := by
  have hadj : it.adjust_stock (-q) = some ({ it with stock := it.stock - q }) := by
    rw [adjust_stock_ok it (-q) (by omega)]
    have harith : it.stock + -q = it.stock - q := by omega
    rw [harith]
  simp only [InventoryManager.create_new_offer, hIt, hadj]

lemma complete_bid_unknown (m : InventoryManager) (oid : String) (now : Int)
    (hO : dictGet m.offers oid = none) :
    m.complete_bid oid now = (CompleteResult.unknownOffer, m) := by
  simp only [InventoryManager.complete_bid, hO]

lemma complete_bid_already (m : InventoryManager) (oid : String) (now : Int)
    (offer : Offer) (hO : dictGet m.offers oid = some offer)
    (hs : offer.status ≠ "active") :
    m.complete_bid oid now = (CompleteResult.alreadyFinalized, m) := by
  simp only [InventoryManager.complete_bid, hO, if_pos hs]

lemma complete_bid_still_open (m : InventoryManager) (oid : String) (now : Int)
    (offer : Offer) (hO : dictGet m.offers oid = some offer)
    (hs : offer.status = "active") (ht : now ≤ offer.endTime) :
    m.complete_bid oid now = (CompleteResult.stillOpen, m) := by
  rw [InventoryManager.complete_bid]
  simp only [hO]
  rw [if_neg (by simp [hs]), if_pos ht]

lemma complete_bid_won_eq (m : InventoryManager) (oid : String) (now : Int)
    (offer : Offer) (w : String) (a : Int)
    (hO : dictGet m.offers oid = some offer)
    (hs : offer.status = "active") (ht : offer.endTime < now)
    (hW : offer.get_highest_bid = (some w, a)) (hw : w ≠ "") :
    m.complete_bid oid now =
      (CompleteResult.won w a,
       { m with offers := dictSet m.offers oid
                  ({ offer with status := "completed",
                                winner := some w, winningBid := a }) }) := by
  rw [InventoryManager.complete_bid]
  simp only [hO]
  rw [if_neg (by simp [hs]), if_neg (Int.not_le.2 ht)]
  simp only [hW, if_neg hw]

lemma complete_bid_nobids_eq (m : InventoryManager) (oid : String) (now : Int)
    (offer : Offer) (hO : dictGet m.offers oid = some offer)
    (hs : offer.status = "active") (ht : offer.endTime < now)
    (hW : offer.get_highest_bid.1 = none ∨ offer.get_highest_bid.1 = some "") :
    m.complete_bid oid now = completeNoBids m oid offer := by
  rw [InventoryManager.complete_bid]
  simp only [hO]
  rw [if_neg (by simp [hs]), if_neg (Int.not_le.2 ht)]
  rcases hp : offer.get_highest_bid with ⟨w, a⟩
  rcases hW with hW | hW <;> rw [hp] at hW
  · simp only at hW
    rw [hW]
  · simp only at hW
    rw [hW]
    simp

/-! ## Claim theorems -/

/-- C4: `adjust(item_id, delta)` fails without mutating exactly when
`current_stock + delta < 0` and otherwise succeeds, setting the stock
to `current_stock + delta`; a zero delta is a no-op success; and from
a non-negative stock any sequence of `adjust` calls keeps the stock
non-negative. -/
theorem adjust_stock_spec (it : Item) (delta : Int) (ds : List Int) :
    (it.stock + delta < 0 → it.adjust_stock delta = none) ∧
    (0 ≤ it.stock + delta →
      it.adjust_stock delta = some ({ it with stock := it.stock + delta })) ∧
    (0 ≤ it.stock → it.adjust_stock 0 = some it) ∧
    (0 ≤ it.stock → 0 ≤ (applyAdjusts it ds).stock) := by
  refine ⟨adjust_stock_fail it delta, adjust_stock_ok it delta, ?_,
    fun h => applyAdjusts_stock_nonneg ds it h⟩
  intro h
  rw [adjust_stock_ok it 0 (by omega)]
  have h0 : it.stock + 0 = it.stock := by omega
  rw [h0]

theorem adjust_stock_spec_witness :
    tItem.adjust_stock (-60) = none ∧
    tItem.adjust_stock (-5) = some ({ tItem with stock := tItem.stock + (-5) }) ∧
    tItem.adjust_stock 0 = some tItem ∧
    0 ≤ (applyAdjusts tItem [-20, -40, 5]).stock :=
  ⟨(adjust_stock_spec tItem (-60) []).1 (by decide),
   (adjust_stock_spec tItem (-5) []).2.1 (by decide),
   (adjust_stock_spec tItem 0 []).2.2.1 (by decide),
   (adjust_stock_spec tItem 0 [-20, -40, 5]).2.2.2 (by decide)⟩

/-- C5: a bid submitted strictly after the offer's end time is always
rejected and leaves the offer — in particular its bid mapping —
unchanged, whatever the amount and whatever the offer's status
(finalized or not). -/
theorem late_bid_rejected (o : Offer) (mid : String) (amount now : Int)
    (h : o.endTime < now) :
    o.add_bid mid amount now = (false, o) ∧
    ((o.add_bid mid amount now).2).bids = o.bids := by
  have he := add_bid_late o mid amount now h
  exact ⟨he, by rw [he]⟩

theorem late_bid_rejected_witness :
    tOffer.add_bid "Gamma" 520 101 = (false, tOffer) ∧
    ((tOffer.add_bid "Gamma" 520 101).2).bids = tOffer.bids :=
  late_bid_rejected tOffer "Gamma" 520 101 (by decide)

/-- C7: for an active offer inside its window, a merchant who already
has a stored bid gets it replaced exactly when the new amount is
strictly greater; an equal or lower amount is rejected and the offer
is left unchanged. -/
theorem rebid_strict_improvement (o : Offer) (mid : String)
    (amount now prev : Int) (hs : o.status = "active")
    (ht : now ≤ o.endTime) (hprev : dictGet o.bids mid = some prev) :
    (amount ≤ prev → o.add_bid mid amount now = (false, o)) ∧
    (prev < amount →
      o.add_bid mid amount now =
        (true, { o with bids := dictSet o.bids mid amount }) ∧
      dictGet ((o.add_bid mid amount now).2).bids mid = some amount) ∧
    ((o.add_bid mid amount now).1 = true ↔ prev < amount) := by
  refine ⟨fun hle => add_bid_not_improved o mid amount now prev hs ht hprev hle,
    fun hgt => ?_, ?_⟩
  · have he := add_bid_improved o mid amount now prev hs ht hprev hgt
    refine ⟨he, ?_⟩
    rw [he]
    exact dictGet_dictSet_self o.bids mid amount
  · constructor
    · intro htrue
      by_contra hnot
      have hle : amount ≤ prev := by omega
      rw [add_bid_not_improved o mid amount now prev hs ht hprev hle] at htrue
      simp at htrue
    · intro hgt
      rw [add_bid_improved o mid amount now prev hs ht hprev hgt]

theorem rebid_strict_improvement_witness :
    tOfferBids.add_bid "Alpha" 510 50 = (false, tOfferBids) ∧
    (tOfferBids.add_bid "Alpha" 600 50).1 = true ∧
    dictGet ((tOfferBids.add_bid "Alpha" 600 50).2).bids "Alpha" = some 600 := by
  refine ⟨(rebid_strict_improvement tOfferBids "Alpha" 510 50 510
      (by decide) (by decide) (by decide)).1 (by decide), ?_, ?_⟩
  · have h := ((rebid_strict_improvement tOfferBids "Alpha" 600 50 510
      (by decide) (by decide) (by decide)).2.1 (by decide)).1
    rw [h]
  · exact ((rebid_strict_improvement tOfferBids "Alpha" 600 50 510
      (by decide) (by decide) (by decide)).2.1 (by decide)).2

/-- C6: `complete_bid` fails with `StillOpen` when the offer is active
and `now ≤ end_time`, and with `AlreadyFinalized` when the status is
not active; both failures return the manager unchanged, so the offer
and the Ledger are untouched. -/
theorem finalize_failure_cases (m : InventoryManager) (oid : String)
    (now : Int) (offer : Offer) (hO : dictGet m.offers oid = some offer) :
    (offer.status = "active" → now ≤ offer.endTime →
      m.complete_bid oid now = (CompleteResult.stillOpen, m)) ∧
    (offer.status ≠ "active" →
      m.complete_bid oid now = (CompleteResult.alreadyFinalized, m)) :=
  ⟨fun hs ht => complete_bid_still_open m oid now offer hO hs ht,
   fun hs => complete_bid_already m oid now offer hO hs⟩

theorem finalize_failure_cases_witness :
    tMgr.complete_bid "OFFER-1" 50 = (CompleteResult.stillOpen, tMgr) ∧
    tMgrDone.complete_bid "OFFER-1" 200 =
      (CompleteResult.alreadyFinalized, tMgrDone) :=
  ⟨(finalize_failure_cases tMgr "OFFER-1" 50 tOfferBids (by decide)).1
      (by decide) (by decide),
   (finalize_failure_cases tMgrDone "OFFER-1" 200
      ({ tOfferBids with status := "completed" }) (by decide)).2 (by decide)⟩

/-- C8: completed is terminal — on a completed offer `place_bid` is
rejected leaving the offer (bids, winner, winning bid, status)
unchanged, and `finalize` fails with `AlreadyFinalized` leaving the
manager (offers and Ledger) unchanged, so no operation moves an offer
out of `completed`. -/
theorem completed_is_terminal (m : InventoryManager) (oid : String)
    (o : Offer) (mid : String) (amount now now2 : Int)
    (hs : o.status = "completed") (hO : dictGet m.offers oid = some o) :
    o.add_bid mid amount now = (false, o) ∧
    m.complete_bid oid now2 = (CompleteResult.alreadyFinalized, m) :=
  ⟨add_bid_not_active o mid amount now (by rw [hs]; decide),
   complete_bid_already m oid now2 o hO (by rw [hs]; decide)⟩

theorem completed_is_terminal_witness :
    ({ tOfferBids with status := "completed" } : Offer).add_bid "Alpha" 999 50 =
      (false, { tOfferBids with status := "completed" }) ∧
    tMgrDone.complete_bid "OFFER-1" 200 =
      (CompleteResult.alreadyFinalized, tMgrDone) :=
  completed_is_terminal tMgrDone "OFFER-1"
    ({ tOfferBids with status := "completed" }) "Alpha" 999 50 200
    (by decide) (by decide)

/-- C2: finalizing an active offer with an empty bid mapping after its
end time completes the offer with winner still `none` and credits the
reserved quantity back to the Ledger exactly once, so the item's stock
returns to its pre-reservation value. -/
theorem nobid_finalize_returns_stock (m : InventoryManager) (oid : String)
    (now : Int) (offer : Offer) (it : Item)
    (hO : dictGet m.offers oid = some offer)
    (hs : offer.status = "active") (ht : offer.endTime < now)
    (hb : offer.bids = []) (hw : offer.winner = none)
    (hIt : dictGet m.inventory offer.itemId = some it)
    (hpos : 0 ≤ it.stock + offer.quantity) :
    (m.complete_bid oid now).1 = CompleteResult.noBids ∧
    dictGet (m.complete_bid oid now).2.offers oid =
      some ({ offer with status := "completed" }) ∧
    (dictGet (m.complete_bid oid now).2.offers oid).map Offer.winner =
      some none ∧
    dictGet (m.complete_bid oid now).2.inventory offer.itemId =
      some ({ it with stock := it.stock + offer.quantity }) := by
  have hW : offer.get_highest_bid = (none, 0) := by
    rw [Offer.get_highest_bid, hb]
  have heq := complete_bid_nobids_eq m oid now offer hO hs ht
    (Or.inl (by rw [hW]))
  have hnb : completeNoBids m oid offer =
      (CompleteResult.noBids,
       { inventory := dictSet m.inventory offer.itemId
           ({ it with stock := it.stock + offer.quantity }),
         offers := dictSet m.offers oid ({ offer with status := "completed" }),
         nextOfferId := m.nextOfferId }) := by
    simp only [completeNoBids, hIt, adjust_stock_ok it offer.quantity hpos]
  rw [heq, hnb]
  refine ⟨rfl, ?_, ?_, ?_⟩
  · exact dictGet_dictSet_self m.offers oid _
  · rw [dictGet_dictSet_self m.offers oid _]
    simp [hw]
  · exact dictGet_dictSet_self m.inventory offer.itemId _

theorem nobid_finalize_returns_stock_witness :
    (tMgrNoBids.complete_bid "OFFER-1" 101).1 = CompleteResult.noBids ∧
    (dictGet (tMgrNoBids.complete_bid "OFFER-1" 101).2.offers
      "OFFER-1").map Offer.winner = some none ∧
    dictGet (tMgrNoBids.complete_bid "OFFER-1" 101).2.inventory "TS-A" =
      some ({ ({ tItem with stock := 30 } : Item) with stock :=
        ({ tItem with stock := 30 } : Item).stock + tOffer.quantity }) := by
  obtain ⟨h1, h2, h3, h4⟩ := nobid_finalize_returns_stock tMgrNoBids "OFFER-1"
    101 tOffer ({ tItem with stock := 30 }) (by decide) (by decide) (by decide)
    (by decide) (by decide) (by decide) (by decide)
  exact ⟨h1, h3, h4⟩

/-- C1 counterexample: `tOfferEmptyBidder` has a non-empty bid mapping
whose maximal entry is `("", 7)`, yet finalizing after the end time
records no winner and mutates the Ledger (the reserved quantity is
credited back), because `complete_bid` tests the winner with Python
truthiness and the empty merchant string is falsy. -/
theorem winning_finalize_truthiness_counterexample :
    tOfferEmptyBidder.bids ≠ [] ∧
    tOfferEmptyBidder.status = "active" ∧
    tOfferEmptyBidder.endTime < 101 ∧
    tOfferEmptyBidder.get_highest_bid = (some "", 7) ∧
    (tMgrEmptyBidder.complete_bid "OFFER-1" 101).1 = CompleteResult.noBids ∧
    (dictGet (tMgrEmptyBidder.complete_bid "OFFER-1" 101).2.offers
      "OFFER-1").map Offer.winner = some none ∧
    (tMgrEmptyBidder.complete_bid "OFFER-1" 101).2.inventory ≠
      tMgrEmptyBidder.inventory := by
  decide

/-- C1 (amended): `get_highest_bid` returns `(none, 0)` on an empty
mapping; on a non-empty mapping it returns the entry of maximum amount,
first-inserted-among-equals; and — provided that winning merchant
identifier is non-empty — finalizing after the end time completes the
offer recording exactly that winner and winning bid, with no Ledger
mutation. -/
theorem winning_finalize_spec (m : InventoryManager) (oid : String)
    (now : Int) (offer : Offer)
    (hO : dictGet m.offers oid = some offer)
    (hs : offer.status = "active") (ht : offer.endTime < now) :
    (offer.bids = [] → offer.get_highest_bid = (none, 0)) ∧
    (offer.bids ≠ [] →
      ∃ w a l1 l2,
        offer.get_highest_bid = (some w, a) ∧
        offer.bids = l1 ++ (w, a) :: l2 ∧
        (∀ p ∈ l1, p.2 < a) ∧ (∀ p ∈ l2, p.2 ≤ a) ∧
        (w ≠ "" →
          m.complete_bid oid now =
            (CompleteResult.won w a,
             { m with offers := dictSet m.offers oid
                        ({ offer with status := "completed",
                                      winner := some w, winningBid := a }) }) ∧
          (m.complete_bid oid now).2.inventory = m.inventory)) := by
  constructor
  · intro hb
    rw [Offer.get_highest_bid, hb]
  · intro hb
    obtain ⟨w, a, l1, l2, hW, hdec, h1, h2⟩ := get_highest_bid_decomp offer hb
    refine ⟨w, a, l1, l2, hW, hdec, h1, h2, fun hw => ?_⟩
    have heq := complete_bid_won_eq m oid now offer w a hO hs ht hW hw
    exact ⟨heq, by rw [heq]⟩

theorem winning_finalize_spec_witness :
    tMgr.complete_bid "OFFER-1" 101 =
      (CompleteResult.won "Alpha" 510,
       { tMgr with offers := dictSet tMgr.offers "OFFER-1"
                     ({ tOfferBids with status := "completed",
                                        winner := some "Alpha",
                                        winningBid := 510 }) }) ∧
    (tMgr.complete_bid "OFFER-1" 101).2.inventory = tMgr.inventory := by
  obtain ⟨-, h⟩ := winning_finalize_spec tMgr "OFFER-1" 101 tOfferBids
    (by decide) (by decide) (by decide)
  obtain ⟨w, a, l1, l2, hW, hdec, h1, h2, himp⟩ := h (by decide)
  have hval : tOfferBids.get_highest_bid = (some "Alpha", 510) := by decide
  have hwa : (some w, a) = ((some "Alpha", (510 : Int)) : Option String × Int) :=
    hW.symm.trans hval
  have hw : w = "Alpha" := by
    have := congrArg Prod.fst hwa
    simpa using this
  have ha : a = 510 := congrArg Prod.snd hwa
  subst hw
  subst ha
  exact himp (by decide)

/-- C9: bid amounts are never validated: an active in-window offer
accepts a first bid of any amount, zero or negative included, and when
that bid is the only one (from a non-empty merchant id) finalize
selects it as the winning bid. -/
theorem unvalidated_amounts (o : Offer) (mid : String) (amount now : Int)
    (m : InventoryManager) (oid : String) (now2 : Int)
    (hs : o.status = "active") (ht : now ≤ o.endTime)
    (hnew : dictGet o.bids mid = none) :
    (o.add_bid mid amount now =
      (true, { o with bids := dictSet o.bids mid amount }) ∧
     dictGet ((o.add_bid mid amount now).2).bids mid = some amount) ∧
    (∀ offer : Offer, dictGet m.offers oid = some offer →
      offer.status = "active" → offer.endTime < now2 →
      offer.bids = [(mid, amount)] → mid ≠ "" →
      (m.complete_bid oid now2).1 = CompleteResult.won mid amount ∧
      (dictGet (m.complete_bid oid now2).2.offers oid).map Offer.winningBid =
        some amount) := by
  constructor
  · have he := add_bid_new o mid amount now hs ht hnew
    exact ⟨he, by rw [he]; exact dictGet_dictSet_self o.bids mid amount⟩
  · intro offer hO hs2 ht2 hbids hmid
    have hW : offer.get_highest_bid = (some mid, amount) := by
      rw [Offer.get_highest_bid, hbids]
      rfl
    have heq := complete_bid_won_eq m oid now2 offer mid amount hO hs2 ht2 hW hmid
    rw [heq]
    refine ⟨rfl, ?_⟩
    rw [dictGet_dictSet_self m.offers oid _]
    rfl

theorem unvalidated_amounts_witness :
    tOffer.add_bid "M" (-3) 50 =
      (true, { tOffer with bids := dictSet tOffer.bids "M" (-3) }) ∧
    ((({ tMgr with offers :=
        [("OFFER-1", { tOffer with bids := [("M", -3)] })] }
        : InventoryManager).complete_bid "OFFER-1" 101).1 =
      CompleteResult.won "M" (-3)) := by
  have h := unvalidated_amounts tOffer "M" (-3) 50
    ({ tMgr with offers := [("OFFER-1", { tOffer with bids := [("M", -3)] })] })
    "OFFER-1" 101 (by decide) (by decide) (by decide)
  refine ⟨h.1.1, ?_⟩
  exact (h.2 ({ tOffer with bids := [("M", -3)] }) (by decide) (by decide)
    (by decide) (by decide) (by decide)).1

/-- C3: `create_offer` is atomic: on success the item's stock drops by
exactly the requested quantity and a fresh active offer is stored under
`OFFER-<counter>`, with the counter starting at 1, bumped on every
success and — given the registry freshness invariant — never handing
out an identifier already in use; on an unknown item or insufficient
stock nothing changes (in particular the counter is untouched, so no
identifier is consumed or reused by failures). -/
theorem create_offer_atomic (m : InventoryManager) (itemId : String)
    (q tEnd : Int) :
    initialManager.nextOfferId = 1 ∧
    (dictGet m.inventory itemId = none →
      m.create_new_offer itemId q tEnd = (none, m)) ∧
    (∀ it : Item, dictGet m.inventory itemId = some it → it.stock - q < 0 →
      m.create_new_offer itemId q tEnd = (none, m)) ∧
    (∀ it : Item, dictGet m.inventory itemId = some it → 0 ≤ it.stock - q →
      (m.create_new_offer itemId q tEnd).1 = some (mkOfferId m.nextOfferId) ∧
      dictGet (m.create_new_offer itemId q tEnd).2.inventory itemId =
        some ({ it with stock := it.stock - q }) ∧
      dictGet (m.create_new_offer itemId q tEnd).2.offers
          (mkOfferId m.nextOfferId) =
        some { offerId := mkOfferId m.nextOfferId, itemId := itemId,
               quantity := q, endTime := tEnd, bids := [],
               status := "active", winner := none, winningBid := 0 } ∧
      (m.create_new_offer itemId q tEnd).2.nextOfferId = m.nextOfferId + 1 ∧
      (OfferIdsFresh m →
        dictGet m.offers (mkOfferId m.nextOfferId) = none ∧
        OfferIdsFresh (m.create_new_offer itemId q tEnd).2)) := by
  refine ⟨rfl, fun h => create_new_offer_unknown m itemId q tEnd h,
    fun it hIt hq => create_new_offer_insufficient m itemId q tEnd it hIt hq,
    fun it hIt hq => ?_⟩
  have heq := create_new_offer_success m itemId q tEnd it hIt hq
  refine ⟨by rw [heq], ?_, ?_, by rw [heq], fun hfresh => ⟨?_, ?_⟩⟩
  · rw [heq]
    exact dictGet_dictSet_self m.inventory itemId _
  · rw [heq]
    exact dictGet_dictSet_self m.offers (mkOfferId m.nextOfferId) _
  · exact hfresh m.nextOfferId (Nat.le_refl _)
  · intro k hk
    have hk2 : m.nextOfferId + 1 ≤ k := by
      rw [heq] at hk
      exact hk
    have hne : mkOfferId m.nextOfferId ≠ mkOfferId k := by
      intro hEq
      have := mkOfferId_inj hEq
      omega
    rw [heq]
    exact (dictGet_dictSet_ne m.offers (mkOfferId k)
      (mkOfferId m.nextOfferId) _ hne).trans (hfresh k (by omega))

theorem create_offer_atomic_witness :
    (initialManager.create_new_offer "TS-A" 20 100).1 = some (mkOfferId 1) ∧
    (initialManager.create_new_offer "TS-A" 20 100).2.nextOfferId = 2 ∧
    initialManager.create_new_offer "TS-A" 1000 100 = (none, initialManager) ∧
    initialManager.create_new_offer "ZZ" 5 100 = (none, initialManager) ∧
    dictGet initialManager.offers (mkOfferId 1) = none := by
  obtain ⟨-, -, -, hsucc⟩ := create_offer_atomic initialManager "TS-A" 20 100
  obtain ⟨h1, h2, h3, h4, h5⟩ := hsucc tItem (by decide) (by decide)
  have hfr : OfferIdsFresh initialManager := fun k hk => rfl
  refine ⟨h1, by rw [h4]; rfl, ?_, ?_, (h5 hfr).1⟩
  · exact (create_offer_atomic initialManager "TS-A" 1000 100).2.2.1 tItem
      (by decide) (by decide)
  · exact (create_offer_atomic initialManager "ZZ" 5 100).2.1 (by decide)

/-- C10: offer quantity is never validated for positivity: for a known
item with non-negative stock, `create_offer` with a non-positive
quantity always succeeds, the stock grows by `|quantity|`, and the
stored active offer carries the given (negative or zero) reserved
quantity; a zero quantity leaves the stock unchanged. -/
theorem negative_quantity_offer (m : InventoryManager) (itemId : String)
    (q tEnd : Int) (it : Item)
    (hIt : dictGet m.inventory itemId = some it)
    (hstock : 0 ≤ it.stock) (hq : q ≤ 0) :
    (m.create_new_offer itemId q tEnd).1 = some (mkOfferId m.nextOfferId) ∧
    dictGet (m.create_new_offer itemId q tEnd).2.inventory itemId =
      some ({ it with stock := it.stock + |q| }) ∧
    dictGet (m.create_new_offer itemId q tEnd).2.offers
        (mkOfferId m.nextOfferId) =
      some { offerId := mkOfferId m.nextOfferId, itemId := itemId,
             quantity := q, endTime := tEnd, bids := [],
             status := "active", winner := none, winningBid := 0 } ∧
    (q = 0 →
      dictGet (m.create_new_offer itemId q tEnd).2.inventory itemId =
        some it) := by
  have hq' : (0 : Int) ≤ it.stock - q := by omega
  have heq := create_new_offer_success m itemId q tEnd it hIt hq'
  have habs : it.stock - q = it.stock + |q| := by
    rw [abs_of_nonpos hq]
    ring
  refine ⟨by rw [heq], ?_, ?_, ?_⟩
  · rw [heq, dictGet_dictSet_self m.inventory itemId _, habs]
  · rw [heq]
    exact dictGet_dictSet_self m.offers (mkOfferId m.nextOfferId) _
  · intro h0
    subst h0
    rw [heq, dictGet_dictSet_self m.inventory itemId _]
    have hzero : it.stock - 0 = it.stock := by ring
    rw [hzero]

theorem negative_quantity_offer_witness :
    (initialManager.create_new_offer "TS-A" (-7) 100).1 = some (mkOfferId 1) ∧
    dictGet (initialManager.create_new_offer "TS-A" (-7) 100).2.inventory
      "TS-A" = some ({ tItem with stock := 57 }) ∧
    dictGet (initialManager.create_new_offer "TS-A" 0 100).2.inventory
      "TS-A" = some tItem := by
  obtain ⟨h1, h2, h3, h4⟩ := negative_quantity_offer initialManager "TS-A"
    (-7) 100 tItem (by decide) (by decide) (by decide)
  obtain ⟨-, -, -, hz⟩ := negative_quantity_offer initialManager "TS-A"
    0 100 tItem (by decide) (by decide) (by decide)
  refine ⟨h1, ?_, hz rfl⟩
  rw [h2]
  decide
